import Mathlib

/-!
Shallow embedding of `fidget/src/render/mod.rs` (the `RenderHandle` and
`TileSizes` types) and proofs about it.

Rust `usize` values are modelled as `Nat`; `Vec` pools used as stacks are
modelled as `List` with the top of the stack at the head (`push` is cons,
`pop` takes the head).  A Rust function that can panic is modelled with an
explicit `panic` result constructor.
-/

/-- Interpretation of the error variants that `TileSizes::new` can raise
(the spec lists exactly these three as the errors surfaced from the core). -/
inductive Error : Type where
  | EmptyTileSizes : Error
  | BadTileOrder : Nat → Nat → Error
  | BadTileSize : Nat → Nat → Error
deriving DecidableEq

/-- Result of running a Rust function that returns `Result<A, Error>` but may
also panic at runtime (e.g. on a remainder-by-zero). -/
inductive RustResult (A : Type) : Type where
  | ok : A → RustResult A
  | err : Error → RustResult A
  | panic : RustResult A
deriving DecidableEq

/-- Embedding of `struct TileSizes(Vec<usize>)`. -/
structure TileSizes : Type where
  sizes : List Nat
deriving DecidableEq

/-- Embedding of the validation loop `for i in 1..sizes.len()` in
`TileSizes::new`: `prev` is `sizes[i-1]`, the list holds `sizes[i..]`.
The order check runs first; when it passes and `sizes[i] = 0`, the Rust
expression `sizes[i-1] % sizes[i]` is a remainder by zero, which panics. -/
def TileSizes.checkLoop : Nat → List Nat → RustResult Unit
  | _, [] => RustResult.ok ()
  | prev, b :: rest =>
    if prev ≤ b then RustResult.err (Error.BadTileOrder prev b)
    else if b = 0 then RustResult.panic
    else if prev % b ≠ 0 then RustResult.err (Error.BadTileSize prev b)
    else TileSizes.checkLoop b rest

/-- Embedding of `TileSizes::new`. -/
def TileSizes.new : List Nat → RustResult TileSizes
  | [] => RustResult.err Error.EmptyTileSizes
  | a :: rest =>
    match TileSizes.checkLoop a rest with
    | RustResult.ok _ => RustResult.ok ⟨a :: rest⟩
    | RustResult.err e => RustResult.err e
    | RustResult.panic => RustResult.panic

/-- Embedding of `TileSizes::pixel_offset`.  The source indexes `self.0[0]`;
every constructed `TileSizes` has a non-empty list, so `headD 0` agrees with
the source's in-bounds index there. -/
def TileSizes.pixel_offset (t : TileSizes) (x y : Nat) : Nat :=
  (x % t.sizes.headD 0) + (y % t.sizes.headD 0) * t.sizes.headD 0

/-- Modelled from the spec wording of the claim: the first adjacent pair
`(a, b)` with `a ≤ b` yields `BadTileOrder a b`; otherwise the first adjacent
pair with `a % b ≠ 0` (mathematical remainder, total) yields
`BadTileSize a b`. -/
def TileSizes.firstViolation : Nat → List Nat → Option Error
  | _, [] => none
  | prev, b :: rest =>
    if prev ≤ b then some (Error.BadTileOrder prev b)
    else if prev % b ≠ 0 then some (Error.BadTileSize prev b)
    else TileSizes.firstViolation b rest

/-- Modelled from the spec wording of the claim: `new` returns `Ok` exactly
when the list is non-empty and no adjacent pair violates the descending /
divisibility checks, and otherwise returns the matching error variant.  It
never panics. -/
def TileSizes.newSpec : List Nat → RustResult TileSizes
  | [] => RustResult.err Error.EmptyTileSizes
  | a :: rest =>
    match TileSizes.firstViolation a rest with
    | some e => RustResult.err e
    | none => RustResult.ok ⟨a :: rest⟩

/-!
Embedding of `RenderHandle<F: Function>`.  The `Function` trait is external
to this file's source; the handle is therefore parameterized over abstract
types for shapes `S`, traces `T`, shape storage `St`, tape storage `Ts`,
workspaces `W` and reference-counted tapes `R`, together with a record of
the trait operations the handle uses.
-/

/-- Operations of the external `Function` / `Shape` traits that
`RenderHandle` uses.  `shapeSimplify` is `Shape::simplify(trace, storage,
workspace).unwrap()`; `shapeRecycle` is `Shape::recycle`; `tapeRecycle` is
`ShapeTape::recycle`; `tapeUnique t` abstracts whether `Arc::try_unwrap`
succeeds on a tape, i.e. whether its reference count is one at that moment;
`defaultStorage` / `defaultTapeStorage` are the `Default::default()` values
used when a pool is empty. -/
structure FnOps (S T St Ts W R : Type) : Type where
  size : S → Nat
  shapeSimplify : S → T → St → W → S
  shapeRecycle : S → Option St
  defaultStorage : St
  defaultTapeStorage : Ts
  intervalTape : S → Ts → R
  floatSliceTape : S → Ts → R
  gradSliceTape : S → Ts → R
  tapeRecycle : R → Ts
  tapeUnique : R → Bool

/-- Embedding of `struct RenderHandle`: a shape, the three lazily populated
tape slots (`i_tape`, `f_tape`, `g_tape` in the source) and the optional
cached simplification `next: Option<(Trace, Box<Self>)>`. -/
inductive RenderHandle (S T R : Type) : Type where
  | mk : S → Option R → Option R → Option R →
      Option (T × RenderHandle S T R) → RenderHandle S T R

section RenderHandleDefs

variable {S T St Ts W R : Type}

/-- The `shape` field. -/
def RenderHandle.shape : RenderHandle S T R → S
  | RenderHandle.mk s _ _ _ _ => s

/-- The `i_tape` field. -/
def RenderHandle.itape : RenderHandle S T R → Option R
  | RenderHandle.mk _ it _ _ _ => it

/-- The `f_tape` field. -/
def RenderHandle.ftape : RenderHandle S T R → Option R
  | RenderHandle.mk _ _ ft _ _ => ft

/-- The `g_tape` field. -/
def RenderHandle.gtape : RenderHandle S T R → Option R
  | RenderHandle.mk _ _ _ gt _ => gt

/-- The `next` field. -/
def RenderHandle.next :
    RenderHandle S T R → Option (T × RenderHandle S T R)
  | RenderHandle.mk _ _ _ _ n => n

/-- Embedding of `RenderHandle::new`: no tape is populated, no child is
cached. -/
def RenderHandle.new (s : S) : RenderHandle S T R :=
  RenderHandle.mk s none none none none

/-- Embedding of `impl Clone for RenderHandle`: the shape and the three
shared tape references are copied, `next` is set to `None`. -/
def RenderHandle.clone : RenderHandle S T R → RenderHandle S T R
  | RenderHandle.mk s it ft gt _ => RenderHandle.mk s it ft gt none

/-- Embedding of `pool.pop().unwrap_or_default()`: take the top of the
stack when the pool is non-empty, else the default value. -/
def popOrDefault (d : A) : List A → A × List A
  | [] => (d, [])
  | x :: xs => (x, xs)

/-- Embedding of `RenderHandle::i_tape`: `self.i_tape.get_or_insert_with(..)`.
Returns the tape, the updated handle, and the updated tape-storage pool. -/
def RenderHandle.i_tape (ops : FnOps S T St Ts W R) :
    RenderHandle S T R → List Ts → R × RenderHandle S T R × List Ts
  | RenderHandle.mk s it ft gt n, pool =>
    match it with
    | some t => (t, RenderHandle.mk s (some t) ft gt n, pool)
    | none =>
      let p := popOrDefault ops.defaultTapeStorage pool
      let t := ops.intervalTape s p.1
      (t, RenderHandle.mk s (some t) ft gt n, p.2)

/-- Embedding of `RenderHandle::f_tape`. -/
def RenderHandle.f_tape (ops : FnOps S T St Ts W R) :
    RenderHandle S T R → List Ts → R × RenderHandle S T R × List Ts
  | RenderHandle.mk s it ft gt n, pool =>
    match ft with
    | some t => (t, RenderHandle.mk s it (some t) gt n, pool)
    | none =>
      let p := popOrDefault ops.defaultTapeStorage pool
      let t := ops.floatSliceTape s p.1
      (t, RenderHandle.mk s it (some t) gt n, p.2)

/-- Embedding of `RenderHandle::g_tape`. -/
def RenderHandle.g_tape (ops : FnOps S T St Ts W R) :
    RenderHandle S T R → List Ts → R × RenderHandle S T R × List Ts
  | RenderHandle.mk s it ft gt n, pool =>
    match gt with
    | some t => (t, RenderHandle.mk s it ft (some t) n, pool)
    | none =>
      let p := popOrDefault ops.defaultTapeStorage pool
      let t := ops.gradSliceTape s p.1
      (t, RenderHandle.mk s it ft (some t) n, p.2)

/-- Embedding of `tape_storage.push(x.recycle())` guarded by
`Arc::try_unwrap`: a populated slot whose tape is uniquely held pushes its
recycled storage; a shared tape is leaked. -/
def pushTape (ops : FnOps S T St Ts W R) : Option R → List Ts → List Ts
  | some t, tp => if ops.tapeUnique t then ops.tapeRecycle t :: tp else tp
  | none, tp => tp

/-- Embedding of `shape_storage.extend(shape.recycle())`. -/
def pushShape (ops : FnOps S T St Ts W R) (s : S) (sp : List St) :
    List St :=
  match ops.shapeRecycle s with
  | some st => st :: sp
  | none => sp

/-- Embedding of `RenderHandle::recycle`: recycle the cached child first,
then push the uniquely-held tape storages (`i_tape`, then `g_tape`, then
`f_tape`, as in the source), and last the shape's storage.  Returns the
updated `(shape_storage, tape_storage)` pools. -/
def RenderHandle.recycle (ops : FnOps S T St Ts W R) :
    RenderHandle S T R → List St → List Ts → List St × List Ts
  | RenderHandle.mk s it ft gt n, sp, tp =>
    let stp :=
      match n with
      | some x => RenderHandle.recycle ops x.2 sp tp
      | none => (sp, tp)
    let tp1 := pushTape ops it stp.2
    let tp2 := pushTape ops gt tp1
    let tp3 := pushTape ops ft tp2
    (pushShape ops s stp.1, tp3)

/-- Result of one call to `RenderHandle::simplify`: the handle after the
call (`self` in the source), whether the returned `&mut Self` is the cached
child stored in `self.next` (`true`) or `self` itself (`false`), the two
pools after the call, and whether `Shape::simplify` was invoked. -/
structure SimplifyOut (S T St Ts R : Type) : Type where
  self : RenderHandle S T R
  returnedChild : Bool
  shapePool : List St
  tapePool : List Ts
  calledShapeSimplify : Bool

/-- Embedding of `RenderHandle::simplify`.  First the cached child is
dropped (and recycled) if its stored trace differs from the argument; then,
when no reusable child remains, a candidate `shape.simplify(trace, ..)` is
built and accepted only when strictly smaller than the current shape,
otherwise its storage is returned to the shape pool.  The stored trace
value equals the argument trace whether it was written by `Trace::clone` or
by `copy_from`. -/
def RenderHandle.simplify [DecidableEq T] (ops : FnOps S T St Ts W R)
    (h : RenderHandle S T R) (trace : T) (workspace : W)
    (shapePool : List St) (tapePool : List Ts) : SimplifyOut S T St Ts R :=
  match h with
  | RenderHandle.mk s it ft gt n =>
    let step1 : Option (T × RenderHandle S T R) × List St × List Ts :=
      match n with
      | some x =>
        if x.1 ≠ trace then
          let stp := RenderHandle.recycle ops x.2 shapePool tapePool
          (none, stp.1, stp.2)
        else (some x, shapePool, tapePool)
      | none => (none, shapePool, tapePool)
    match step1 with
    | (some x, sp, tp) =>
      ⟨RenderHandle.mk s it ft gt (some x), true, sp, tp, false⟩
    | (none, sp, tp) =>
      let p := popOrDefault ops.defaultStorage sp
      let cand := ops.shapeSimplify s trace p.1 workspace
      if ops.size cand ≥ ops.size s then
        ⟨RenderHandle.mk s it ft gt none, false,
          pushShape ops cand p.2, tp, true⟩
      else
        ⟨RenderHandle.mk s it ft gt
            (some (trace, RenderHandle.mk cand none none none none)),
          true, p.2, tp, true⟩

/-- The invariant of the claim: along the whole cached-child chain, a
child's shape is strictly smaller than its parent's. -/
def RenderHandle.Inv (ops : FnOps S T St Ts W R) :
    RenderHandle S T R → Prop
  | RenderHandle.mk s _ _ _ n =>
    match n with
    | some x => ops.size x.2.shape < ops.size s ∧ RenderHandle.Inv ops x.2
    | none => True

/-- Modelled from the spec wording of the claim: recycling first recycles
the cached child chain (children before parents), then pushes in one batch
the recycled backing storages of exactly those tape slots whose tape is
uniquely held (in the source's `i_tape`, `g_tape`, `f_tape` push order),
leaking shared tapes, and finally returns the shape's storage to the shape
pool. -/
def RenderHandle.recycleSpec (ops : FnOps S T St Ts W R) :
    RenderHandle S T R → List St → List Ts → List St × List Ts
  | RenderHandle.mk s it ft gt n, sp, tp =>
    let stp :=
      match n with
      | some x => RenderHandle.recycleSpec ops x.2 sp tp
      | none => (sp, tp)
    let uniqueTapes :=
      (([ft, gt, it].filterMap id).filter (fun t => ops.tapeUnique t)).map
        ops.tapeRecycle
    ((ops.shapeRecycle s).toList ++ stp.1, uniqueTapes ++ stp.2)

end RenderHandleDefs

/-- A concrete instantiation of the trait operations (all type parameters
`Nat`) used to exercise the theorems on explicit inputs: a shape's size is
the shape itself, and simplifying with trace `t` yields the shape `t`. -/
def opsShrink : FnOps Nat Nat Nat Nat Nat Nat :=
  ⟨id, fun _ t _ _ => t, fun s => some s, 0, 0,
    fun s _ => s, fun s _ => s, fun s _ => s, id, fun _ => true⟩

/-- A concrete instantiation of the trait operations where simplification
returns the shape unchanged, so a candidate is never strictly smaller. -/
def opsNoShrink : FnOps Nat Nat Nat Nat Nat Nat :=
  ⟨id, fun s _ _ _ => s, fun s => some s, 0, 0,
    fun s _ => s, fun s _ => s, fun s _ => s, id, fun _ => true⟩

/-!
Theorems.
-/

theorem TileSizes.checkLoop_eq_firstViolation (rest : List Nat) :
    ∀ prev : Nat, (∀ x ∈ rest, 0 < x) →
      TileSizes.checkLoop prev rest =
        match TileSizes.firstViolation prev rest with
        | some e => RustResult.err e
        | none => RustResult.ok () := by
  induction rest with
  | nil => intro prev _; rfl
  | cons b rest ih =>
    intro prev hpos
    have hb : 0 < b := hpos b (List.mem_cons_self b rest)
    have hbne : ¬ (b = 0) := Nat.pos_iff_ne_zero.mp hb
    by_cases hle : prev ≤ b
    · simp [TileSizes.checkLoop, TileSizes.firstViolation, hle]
    · by_cases hmod : prev % b ≠ 0
      · simp [TileSizes.checkLoop, TileSizes.firstViolation, hle, hbne, hmod]
      · have := ih b (fun x hx => hpos x (List.mem_cons_of_mem b hx))
        simp [TileSizes.checkLoop, TileSizes.firstViolation, hle, hbne, hmod,
          this]

theorem TileSizes.new_eq_newSpec_of_pos (sizes : List Nat)
    (hpos : ∀ x ∈ sizes, 0 < x) :
    TileSizes.new sizes = TileSizes.newSpec sizes := by
  cases sizes with
  | nil => rfl
  | cons a rest =>
    have h := TileSizes.checkLoop_eq_firstViolation rest a
      (fun x hx => hpos x (List.mem_cons_of_mem a hx))
    simp only [TileSizes.new, TileSizes.newSpec, h]
    cases TileSizes.firstViolation a rest <;> rfl

theorem TileSizes.newSpec_ne_panic (sizes : List Nat) :
    TileSizes.newSpec sizes ≠ RustResult.panic := by
  cases sizes with
  | nil => simp [TileSizes.newSpec]
  | cons a rest =>
    simp only [TileSizes.newSpec]
    cases TileSizes.firstViolation a rest <;> simp

theorem TileSizes.new_ok_sizes (l : List Nat) (t : TileSizes)
    (h : TileSizes.new l = RustResult.ok t) : t.sizes = l := by
  cases l with
  | nil => simp [TileSizes.new] at h
  | cons a rest =>
    simp only [TileSizes.new] at h
    cases hc : TileSizes.checkLoop a rest <;> rw [hc] at h
    · cases h
      rfl
    · cases h
    · cases h

/-- C4 counterexample: on input `[4, 0]` the first adjacent pair has
`4 > 0` and (mathematical) `4 % 0 = 4 ≠ 0`, so the claim predicts the error
variant `BadTileSize 4 0`; the code instead evaluates the Rust expression
`4 % 0`, which panics, and returns no error at all. -/
theorem TileSizes.new_zero_divisor_cex :
    TileSizes.new [4, 0] = RustResult.panic ∧
      4 % 0 ≠ 0 ∧
      TileSizes.new [4, 0] ≠ RustResult.err (Error.BadTileSize 4 0) := by
  decide

/-- C4 (amended): for every list of positive sizes, `TileSizes::new` returns
`Ok` exactly when the list is non-empty, strictly descending, and each
element divides its predecessor, and on failure returns the matching error
variant (`EmptyTileSizes` for an empty list, `BadTileOrder (a, b)` for the
first adjacent pair with `a ≤ b`, `BadTileSize (a, b)` for the first adjacent
pair with `a > b` but `a % b ≠ 0`), stated as agreement with the spec-side
function `newSpec`; in particular `new [] = EmptyTileSizes`,
`new [4,4] = BadTileOrder 4 4` and `new [12,5] = BadTileSize 12 5`. -/
theorem TileSizes.new_matches_spec :
    (∀ sizes : List Nat, (∀ x ∈ sizes, 0 < x) →
      TileSizes.new sizes = TileSizes.newSpec sizes) ∧
    TileSizes.new [] = RustResult.err Error.EmptyTileSizes ∧
    TileSizes.new [4, 4] = RustResult.err (Error.BadTileOrder 4 4) ∧
    TileSizes.new [12, 5] = RustResult.err (Error.BadTileSize 12 5) := by
  refine ⟨TileSizes.new_eq_newSpec_of_pos, by decide, by decide, by decide⟩

/-- C4 witness: the general part of `TileSizes.new_matches_spec` applied at
the concrete input `[12, 5]`. -/
theorem TileSizes.new_matches_spec_witness :
    TileSizes.new [12, 5] = TileSizes.newSpec [12, 5] :=
  TileSizes.new_matches_spec.1 [12, 5] (by decide)

/-- C5 counterexample: `TileSizes::new` is not total over slices containing
zero: on `[4, 0]` it panics (remainder by zero) instead of returning `Ok` or
an error variant. -/
theorem TileSizes.new_not_total_on_zero_cex :
    TileSizes.new [4, 0] = RustResult.panic := by
  decide

/-- C5 (amended): `TileSizes::new` is total over every slice of positive
sizes (zero-free slices, including the empty slice): it returns either `Ok`
or one of the three error variants and never panics; a slice containing a
zero may instead crash with a remainder-by-zero panic. -/
theorem TileSizes.new_total_on_positive (sizes : List Nat)
    (hpos : ∀ x ∈ sizes, 0 < x) :
    (∃ t, TileSizes.new sizes = RustResult.ok t) ∨
      (∃ e, TileSizes.new sizes = RustResult.err e) := by
  rw [TileSizes.new_eq_newSpec_of_pos sizes hpos]
  cases hs : TileSizes.newSpec sizes with
  | ok t => exact Or.inl ⟨t, rfl⟩
  | err e => exact Or.inr ⟨e, rfl⟩
  | panic => exact absurd hs (TileSizes.newSpec_ne_panic sizes)

/-- C5 witness: `TileSizes.new_total_on_positive` at the concrete input
`[12, 5]`. -/
theorem TileSizes.new_total_on_positive_witness :
    (∃ t, TileSizes.new [12, 5] = RustResult.ok t) ∨
      (∃ e, TileSizes.new [12, 5] = RustResult.err e) :=
  TileSizes.new_total_on_positive [12, 5] (by decide)

/-- C9: for every constructed `TileSizes` value and every point `(x, y)`,
`pixel_offset (x, y) = (x % s0) + (y % s0) * s0` where `s0` is the first
(largest) tile size in the list. -/
theorem TileSizes.pixel_offset_eq (s0 : Nat) (rest : List Nat)
    (t : TileSizes) (x y : Nat)
    (h : TileSizes.new (s0 :: rest) = RustResult.ok t) :
    t.pixel_offset x y = (x % s0) + (y % s0) * s0 := by
  have hs := TileSizes.new_ok_sizes (s0 :: rest) t h
  simp [TileSizes.pixel_offset, hs]

/-- C9 witness: `TileSizes.pixel_offset_eq` at the concrete tile list
`[4, 2]` and point `(7, 5)`. -/
theorem TileSizes.pixel_offset_eq_witness :
    TileSizes.pixel_offset ⟨[4, 2]⟩ 7 5 = (7 % 4) + (5 % 4) * 4 :=
  TileSizes.pixel_offset_eq 4 [2] ⟨[4, 2]⟩ 7 5 (by decide)

section RenderHandleThms

variable {S T St Ts W R : Type}

/-- C7: `clone` returns a handle with the same shape and the same three
shared tape references as the original, and with no cached child. -/
theorem RenderHandle.clone_spec (h : RenderHandle S T R) :
    h.clone.shape = h.shape ∧ h.clone.itape = h.itape ∧
      h.clone.ftape = h.ftape ∧ h.clone.gtape = h.gtape ∧
      h.clone.next = none := by
  cases h
  exact ⟨rfl, rfl, rfl, rfl, rfl⟩

/-- C8: `new` leaves all three tape slots unpopulated and no cached child;
for each of `i_tape`, `f_tape` and `g_tape`, a call on an unpopulated slot
builds the tape, popping one storage slot when the pool is non-empty and
using the default (fresh) storage when it is empty, and records the tape in
the slot; a call on a populated slot returns the cached tape, leaving the
handle and the pool untouched; hence after a first call every subsequent
call returns the same tape without building again or touching the pool. -/
theorem RenderHandle.new_and_tapes_spec (ops : FnOps S T St Ts W R) :
    (∀ s : S, (RenderHandle.new s : RenderHandle S T R).shape = s ∧
      (RenderHandle.new s : RenderHandle S T R).itape = none ∧
      (RenderHandle.new s : RenderHandle S T R).ftape = none ∧
      (RenderHandle.new s : RenderHandle S T R).gtape = none ∧
      (RenderHandle.new s : RenderHandle S T R).next = none) ∧
    (∀ (s : S) (ft gt : Option R) (n : Option (T × RenderHandle S T R))
        (x : Ts) (xs : List Ts),
      RenderHandle.i_tape ops (RenderHandle.mk s none ft gt n) (x :: xs) =
        (ops.intervalTape s x,
          RenderHandle.mk s (some (ops.intervalTape s x)) ft gt n, xs) ∧
      RenderHandle.i_tape ops (RenderHandle.mk s none ft gt n) [] =
        (ops.intervalTape s ops.defaultTapeStorage,
          RenderHandle.mk s (some (ops.intervalTape s ops.defaultTapeStorage))
            ft gt n, []) ∧
      ∀ t : R, RenderHandle.i_tape ops
          (RenderHandle.mk s (some t) ft gt n) (x :: xs) =
        (t, RenderHandle.mk s (some t) ft gt n, x :: xs)) ∧
    (∀ (s : S) (it gt : Option R) (n : Option (T × RenderHandle S T R))
        (x : Ts) (xs : List Ts),
      RenderHandle.f_tape ops (RenderHandle.mk s it none gt n) (x :: xs) =
        (ops.floatSliceTape s x,
          RenderHandle.mk s it (some (ops.floatSliceTape s x)) gt n, xs) ∧
      RenderHandle.f_tape ops (RenderHandle.mk s it none gt n) [] =
        (ops.floatSliceTape s ops.defaultTapeStorage,
          RenderHandle.mk s it
            (some (ops.floatSliceTape s ops.defaultTapeStorage)) gt n, []) ∧
      ∀ t : R, RenderHandle.f_tape ops
          (RenderHandle.mk s it (some t) gt n) (x :: xs) =
        (t, RenderHandle.mk s it (some t) gt n, x :: xs)) ∧
    (∀ (s : S) (it ft : Option R) (n : Option (T × RenderHandle S T R))
        (x : Ts) (xs : List Ts),
      RenderHandle.g_tape ops (RenderHandle.mk s it ft none n) (x :: xs) =
        (ops.gradSliceTape s x,
          RenderHandle.mk s it ft (some (ops.gradSliceTape s x)) n, xs) ∧
      RenderHandle.g_tape ops (RenderHandle.mk s it ft none n) [] =
        (ops.gradSliceTape s ops.defaultTapeStorage,
          RenderHandle.mk s it ft
            (some (ops.gradSliceTape s ops.defaultTapeStorage)) n, []) ∧
      ∀ t : R, RenderHandle.g_tape ops
          (RenderHandle.mk s it ft (some t) n) (x :: xs) =
        (t, RenderHandle.mk s it ft (some t) n, x :: xs)) ∧
    (∀ (h : RenderHandle S T R) (pool pool' : List Ts),
      RenderHandle.i_tape ops (RenderHandle.i_tape ops h pool).2.1 pool' =
        ((RenderHandle.i_tape ops h pool).1,
          (RenderHandle.i_tape ops h pool).2.1, pool') ∧
      RenderHandle.f_tape ops (RenderHandle.f_tape ops h pool).2.1 pool' =
        ((RenderHandle.f_tape ops h pool).1,
          (RenderHandle.f_tape ops h pool).2.1, pool') ∧
      RenderHandle.g_tape ops (RenderHandle.g_tape ops h pool).2.1 pool' =
        ((RenderHandle.g_tape ops h pool).1,
          (RenderHandle.g_tape ops h pool).2.1, pool')) := by
  refine ⟨fun s => ⟨rfl, rfl, rfl, rfl, rfl⟩,
    fun s ft gt n x xs => ⟨rfl, rfl, fun t => rfl⟩,
    fun s it gt n x xs => ⟨rfl, rfl, fun t => rfl⟩,
    fun s it ft n x xs => ⟨rfl, rfl, fun t => rfl⟩,
    fun h pool pool' => ?_⟩
  cases h with
  | mk s it ft gt n =>
    refine ⟨?_, ?_, ?_⟩
    · cases it <;> cases pool <;> rfl
    · cases ft <;> cases pool <;> rfl
    · cases gt <;> cases pool <;> rfl

theorem pushShape_eq_toList_append (ops : FnOps S T St Ts W R) (s : S)
    (sp : List St) :
    pushShape ops s sp = (ops.shapeRecycle s).toList ++ sp := by
  cases h : ops.shapeRecycle s <;> simp [pushShape, h]

theorem pushTape_three_eq (ops : FnOps S T St Ts W R)
    (it ft gt : Option R) (tp : List Ts) :
    pushTape ops ft (pushTape ops gt (pushTape ops it tp)) =
      (([ft, gt, it].filterMap id).filter
          (fun t => ops.tapeUnique t)).map ops.tapeRecycle ++ tp := by
  cases it <;> cases ft <;> cases gt <;>
    simp only [pushTape, List.filterMap, List.filter, id] <;>
    first
      | simp
      | (split_ifs <;> simp_all)

/-- C6: `RenderHandle::recycle` agrees with the spec-side description
`recycleSpec`: it first recursively recycles the cached child chain
(children before parents), then pushes onto the tape pool the recycled
backing storage of exactly those tapes that are uniquely held (leaking any
tape still shared by a clone), and finally returns the shape's storage to
the shape pool. -/
theorem RenderHandle.recycle_eq_recycleSpec (ops : FnOps S T St Ts W R) :
    ∀ (h : RenderHandle S T R) (sp : List St) (tp : List Ts),
      RenderHandle.recycle ops h sp tp = RenderHandle.recycleSpec ops h sp tp
  | RenderHandle.mk s it ft gt none, sp, tp => by
    simp only [RenderHandle.recycle, RenderHandle.recycleSpec,
      pushShape_eq_toList_append, pushTape_three_eq]
  | RenderHandle.mk s it ft gt (some x), sp, tp => by
    have ih := RenderHandle.recycle_eq_recycleSpec ops x.2 sp tp
    simp only [RenderHandle.recycle, RenderHandle.recycleSpec, ih,
      pushShape_eq_toList_append, pushTape_three_eq]

theorem RenderHandle.simplify_hit [DecidableEq T]
    (ops : FnOps S T St Ts W R) (s : S) (it ft gt : Option R)
    (c : RenderHandle S T R) (trace : T) (w : W) (sp : List St)
    (tp : List Ts) :
    RenderHandle.simplify ops (RenderHandle.mk s it ft gt (some (trace, c)))
        trace w sp tp =
      ⟨RenderHandle.mk s it ft gt (some (trace, c)), true, sp, tp, false⟩ := by
  simp [RenderHandle.simplify]

theorem RenderHandle.simplify_miss [DecidableEq T]
    (ops : FnOps S T St Ts W R) (s : S) (it ft gt : Option R)
    (n : Option (T × RenderHandle S T R)) (trace : T) (w : W)
    (sp : List St) (tp : List Ts) (stp : List St × List Ts)
    (hmiss : ∀ x, n = some x → x.1 ≠ trace)
    (hstp : stp = match n with
      | some x => RenderHandle.recycle ops x.2 sp tp
      | none => (sp, tp)) :
    RenderHandle.simplify ops (RenderHandle.mk s it ft gt n) trace w sp tp =
      if ops.size (ops.shapeSimplify s trace
            (popOrDefault ops.defaultStorage stp.1).1 w) ≥ ops.size s then
        ⟨RenderHandle.mk s it ft gt none, false,
          pushShape ops (ops.shapeSimplify s trace
            (popOrDefault ops.defaultStorage stp.1).1 w)
            (popOrDefault ops.defaultStorage stp.1).2, stp.2, true⟩
      else
        ⟨RenderHandle.mk s it ft gt
            (some (trace, RenderHandle.mk (ops.shapeSimplify s trace
              (popOrDefault ops.defaultStorage stp.1).1 w)
              none none none none)),
          true, (popOrDefault ops.defaultStorage stp.1).2, stp.2, true⟩ := by
  cases n with
  | none =>
    subst hstp
    rfl
  | some x =>
    have hx : x.1 ≠ trace := hmiss x rfl
    subst hstp
    simp [RenderHandle.simplify, hx]

/-- C1: whenever `simplify` actually builds a candidate
`cand = shape.simplify(trace, ..)` — that is, whenever no cached child with
the same trace exists — it installs the candidate as the new cached child
and returns that child exactly when `cand.size() < shape.size()` (strict,
so an equal-size simplification is rejected); otherwise it returns the
candidate's storage to the shape pool and returns `self` unchanged.  Here
`stp` is the pool pair after the stale child (if any) is recycled, `p` is
the popped shape storage, and `cand` the candidate shape. -/
theorem RenderHandle.simplify_acceptance [DecidableEq T]
    (ops : FnOps S T St Ts W R) (s : S) (it ft gt : Option R)
    (n : Option (T × RenderHandle S T R)) (trace : T) (w : W)
    (sp : List St) (tp : List Ts) (stp : List St × List Ts)
    (p : St × List St) (cand : S)
    (hmiss : ∀ x, n = some x → x.1 ≠ trace)
    (hstp : stp = match n with
      | some x => RenderHandle.recycle ops x.2 sp tp
      | none => (sp, tp))
    (hp : p = popOrDefault ops.defaultStorage stp.1)
    (hcand : cand = ops.shapeSimplify s trace p.1 w) :
    (ops.size cand < ops.size s →
      RenderHandle.simplify ops (RenderHandle.mk s it ft gt n) trace w sp tp =
        ⟨RenderHandle.mk s it ft gt
            (some (trace, RenderHandle.mk cand none none none none)),
          true, p.2, stp.2, true⟩) ∧
    (¬ ops.size cand < ops.size s →
      RenderHandle.simplify ops (RenderHandle.mk s it ft gt n) trace w sp tp =
        ⟨RenderHandle.mk s it ft gt none, false,
          pushShape ops cand p.2, stp.2, true⟩) := by
  subst hp
  subst hcand
  rw [RenderHandle.simplify_miss ops s it ft gt n trace w sp tp stp hmiss
    hstp]
  constructor
  · intro hlt
    rw [if_neg (by omega)]
  · intro hge
    rw [if_pos (by omega)]

/-- C1 witness: `RenderHandle.simplify_acceptance` at the concrete
instantiation `opsShrink`, handle `new 5`, trace `3` (so the candidate is
`3`, strictly smaller than `5` and accepted). -/
theorem RenderHandle.simplify_acceptance_witness :
    RenderHandle.simplify opsShrink
        (RenderHandle.mk 5 none none none none) 3 0 [] [] =
      ⟨RenderHandle.mk 5 none none none
          (some (3, RenderHandle.mk 3 none none none none)),
        true, [], [], true⟩ :=
  (RenderHandle.simplify_acceptance opsShrink 5 none none none none 3 0
    [] [] ([], []) (0, []) 3 (fun x hx => by cases hx) rfl rfl rfl).1
    (by decide)

/-- C10: `simplify` never modifies the handle's own shape field or its
three tape slots; and whenever the candidate simplification is rejected
(the call invoked `Shape::simplify` but returned `self` rather than a
child), the handle's cached child is absent afterwards. -/
theorem RenderHandle.simplify_frame [DecidableEq T]
    (ops : FnOps S T St Ts W R) (h : RenderHandle S T R) (trace : T)
    (w : W) (sp : List St) (tp : List Ts) :
    (RenderHandle.simplify ops h trace w sp tp).self.shape = h.shape ∧
    (RenderHandle.simplify ops h trace w sp tp).self.itape = h.itape ∧
    (RenderHandle.simplify ops h trace w sp tp).self.ftape = h.ftape ∧
    (RenderHandle.simplify ops h trace w sp tp).self.gtape = h.gtape ∧
    ((RenderHandle.simplify ops h trace w sp tp).returnedChild = false →
      (RenderHandle.simplify ops h trace w sp tp).self.next = none) := by
  cases h with
  | mk s it ft gt n =>
    cases n with
    | none =>
      rw [RenderHandle.simplify_miss ops s it ft gt none trace w sp tp
        (sp, tp) (fun x hx => by cases hx) rfl]
      by_cases hge : ops.size (ops.shapeSimplify s trace
          (popOrDefault ops.defaultStorage sp).1 w) ≥ ops.size s
      · rw [if_pos hge]
        exact ⟨rfl, rfl, rfl, rfl, fun _ => rfl⟩
      · rw [if_neg hge]
        exact ⟨rfl, rfl, rfl, rfl, fun hc => by cases hc⟩
    | some x =>
      by_cases hx : x.1 = trace
      · obtain ⟨t, c⟩ := x
        subst hx
        rw [RenderHandle.simplify_hit]
        exact ⟨rfl, rfl, rfl, rfl, fun hc => by cases hc⟩
      · rw [RenderHandle.simplify_miss ops s it ft gt (some x) trace w sp tp
          (RenderHandle.recycle ops x.2 sp tp) (fun y hy => by
            cases hy
            exact hx) rfl]
        by_cases hge : ops.size (ops.shapeSimplify s trace
            (popOrDefault ops.defaultStorage
              (RenderHandle.recycle ops x.2 sp tp).1).1 w) ≥ ops.size s
        · rw [if_pos hge]
          exact ⟨rfl, rfl, rfl, rfl, fun _ => rfl⟩
        · rw [if_neg hge]
          exact ⟨rfl, rfl, rfl, rfl, fun hc => by cases hc⟩

/-- C10 witness: `RenderHandle.simplify_frame` at the concrete
instantiation `opsNoShrink` and handle `new 1` (the candidate `1` is not
strictly smaller, so it is rejected), combined with evaluation showing the
rejected call indeed returned `self` with no cached child. -/
theorem RenderHandle.simplify_frame_witness :
    (RenderHandle.simplify opsNoShrink
        (RenderHandle.mk 1 none none none none) 7 0 [] []).self.next =
      none :=
  (RenderHandle.simplify_frame opsNoShrink
    (RenderHandle.mk 1 none none none none) 7 0 [] []).2.2.2.2 (by decide)

theorem RenderHandle.inv_mk (ops : FnOps S T St Ts W R) (s : S)
    (it ft gt : Option R) (n : Option (T × RenderHandle S T R)) :
    RenderHandle.Inv ops (RenderHandle.mk s it ft gt n) =
      (match n with
       | some x =>
         ops.size x.2.shape < ops.size s ∧ RenderHandle.Inv ops x.2
       | none => True) := by
  cases n <;> rfl

theorem RenderHandle.simplify_returnedChild_next [DecidableEq T]
    (ops : FnOps S T St Ts W R) (h : RenderHandle S T R) (trace : T)
    (w : W) (sp : List St) (tp : List Ts)
    (hacc : (RenderHandle.simplify ops h trace w sp tp).returnedChild =
      true) :
    ∃ c, (RenderHandle.simplify ops h trace w sp tp).self =
      RenderHandle.mk h.shape h.itape h.ftape h.gtape (some (trace, c)) := by
  cases h with
  | mk s it ft gt n =>
    cases n with
    | none =>
      rw [RenderHandle.simplify_miss ops s it ft gt none trace w sp tp
        (sp, tp) (fun x hx => by cases hx) rfl] at hacc ⊢
      by_cases hge : ops.size (ops.shapeSimplify s trace
          (popOrDefault ops.defaultStorage sp).1 w) ≥ ops.size s
      · rw [if_pos hge] at hacc
        cases hacc
      · rw [if_neg hge]
        exact ⟨_, rfl⟩
    | some x =>
      by_cases hx : x.1 = trace
      · obtain ⟨t, c⟩ := x
        subst hx
        rw [RenderHandle.simplify_hit]
        exact ⟨c, rfl⟩
      · rw [RenderHandle.simplify_miss ops s it ft gt (some x) trace w sp tp
          (RenderHandle.recycle ops x.2 sp tp) (fun y hy => by
            cases hy
            exact hx) rfl] at hacc ⊢
        by_cases hge : ops.size (ops.shapeSimplify s trace
            (popOrDefault ops.defaultStorage
              (RenderHandle.recycle ops x.2 sp tp).1).1 w) ≥ ops.size s
        · rw [if_pos hge] at hacc
          cases hacc
        · rw [if_neg hge]
          exact ⟨_, rfl⟩

/-- C2 counterexample: two successive `simplify` calls with the same trace
do not always skip the second `Shape::simplify` invocation.  With
`opsNoShrink` the first call on a fresh handle builds a candidate that is
not strictly smaller, rejects it and caches nothing, so the second call
with the same trace invokes `Shape::simplify` again. -/
theorem RenderHandle.simplify_second_call_cex :
    (RenderHandle.simplify opsNoShrink
        (RenderHandle.mk 1 none none none none) 7 0 [] []
      ).calledShapeSimplify = true ∧
    (RenderHandle.simplify opsNoShrink
        (RenderHandle.simplify opsNoShrink
          (RenderHandle.mk 1 none none none none) 7 0 [] []).self 7 0
        (RenderHandle.simplify opsNoShrink
          (RenderHandle.mk 1 none none none none) 7 0 [] []).shapePool
        (RenderHandle.simplify opsNoShrink
          (RenderHandle.mk 1 none none none none) 7 0 [] []).tapePool
      ).calledShapeSimplify = true := by
  decide

/-- C2 (amended): when a `simplify` call returns a cached child (in
particular, whenever the first of two calls installed a strictly smaller
simplification), a second call with the same trace value returns the same
handle with the same child, leaves both pools untouched, and does not
invoke `Shape::simplify`; when the first call rejected its candidate, no
child is cached and the second call invokes `Shape::simplify` again. -/
theorem RenderHandle.simplify_cache_reuse [DecidableEq T]
    (ops : FnOps S T St Ts W R) (h : RenderHandle S T R) (trace : T)
    (w w' : W) (sp : List St) (tp : List Ts)
    (hacc : (RenderHandle.simplify ops h trace w sp tp).returnedChild =
      true) :
    RenderHandle.simplify ops
        (RenderHandle.simplify ops h trace w sp tp).self trace w'
        (RenderHandle.simplify ops h trace w sp tp).shapePool
        (RenderHandle.simplify ops h trace w sp tp).tapePool =
      ⟨(RenderHandle.simplify ops h trace w sp tp).self, true,
        (RenderHandle.simplify ops h trace w sp tp).shapePool,
        (RenderHandle.simplify ops h trace w sp tp).tapePool, false⟩ := by
  obtain ⟨c, hc⟩ :=
    RenderHandle.simplify_returnedChild_next ops h trace w sp tp hacc
  rw [hc]
  exact RenderHandle.simplify_hit ops h.shape h.itape h.ftape h.gtape c
    trace w' _ _

/-- C2 witness: `RenderHandle.simplify_cache_reuse` at the concrete
instantiation `opsShrink`, handle `new 5` and trace `3` (the first call
accepts the candidate `3`). -/
theorem RenderHandle.simplify_cache_reuse_witness :
    RenderHandle.simplify opsShrink
        (RenderHandle.simplify opsShrink
          (RenderHandle.mk 5 none none none none) 3 0 [] []).self 3 0
        (RenderHandle.simplify opsShrink
          (RenderHandle.mk 5 none none none none) 3 0 [] []).shapePool
        (RenderHandle.simplify opsShrink
          (RenderHandle.mk 5 none none none none) 3 0 [] []).tapePool =
      ⟨(RenderHandle.simplify opsShrink
          (RenderHandle.mk 5 none none none none) 3 0 [] []).self, true,
        (RenderHandle.simplify opsShrink
          (RenderHandle.mk 5 none none none none) 3 0 [] []).shapePool,
        (RenderHandle.simplify opsShrink
          (RenderHandle.mk 5 none none none none) 3 0 [] []).tapePool,
        false⟩ :=
  RenderHandle.simplify_cache_reuse opsShrink
    (RenderHandle.mk 5 none none none none) 3 0 0 [] [] (by decide)

/-- C3: every operation on `RenderHandle` that yields a handle (`new`,
`clone`, `i_tape`, `f_tape`, `g_tape`, `simplify`) preserves the invariant
that whenever a handle's `next` field is `some (t, child)`, the child's
shape is strictly smaller than the handle's shape (`recycle` consumes its
handle and returns only pools, so there is nothing for it to preserve). -/
theorem RenderHandle.inv_preserved [DecidableEq T]
    (ops : FnOps S T St Ts W R) :
    (∀ s : S,
      RenderHandle.Inv ops (RenderHandle.new s : RenderHandle S T R)) ∧
    (∀ h : RenderHandle S T R, RenderHandle.Inv ops h →
      RenderHandle.Inv ops h.clone) ∧
    (∀ (h : RenderHandle S T R) (pool : List Ts),
      RenderHandle.Inv ops h →
      RenderHandle.Inv ops (RenderHandle.i_tape ops h pool).2.1) ∧
    (∀ (h : RenderHandle S T R) (pool : List Ts),
      RenderHandle.Inv ops h →
      RenderHandle.Inv ops (RenderHandle.f_tape ops h pool).2.1) ∧
    (∀ (h : RenderHandle S T R) (pool : List Ts),
      RenderHandle.Inv ops h →
      RenderHandle.Inv ops (RenderHandle.g_tape ops h pool).2.1) ∧
    (∀ (h : RenderHandle S T R) (trace : T) (w : W) (sp : List St)
        (tp : List Ts), RenderHandle.Inv ops h →
      RenderHandle.Inv ops
        (RenderHandle.simplify ops h trace w sp tp).self) := by
  refine ⟨fun s => trivial, ?_, ?_, ?_, ?_, ?_⟩
  · intro h hI
    cases h
    exact trivial
  · intro h pool hI
    cases h with
    | mk s it ft gt n =>
      rw [RenderHandle.inv_mk] at hI
      cases it <;> simp [RenderHandle.i_tape, RenderHandle.inv_mk] <;>
        exact hI
  · intro h pool hI
    cases h with
    | mk s it ft gt n =>
      rw [RenderHandle.inv_mk] at hI
      cases ft <;> simp [RenderHandle.f_tape, RenderHandle.inv_mk] <;>
        exact hI
  · intro h pool hI
    cases h with
    | mk s it ft gt n =>
      rw [RenderHandle.inv_mk] at hI
      cases gt <;> simp [RenderHandle.g_tape, RenderHandle.inv_mk] <;>
        exact hI
  · intro h trace w sp tp hI
    cases h with
    | mk s it ft gt n =>
      cases n with
      | none =>
        rw [RenderHandle.simplify_miss ops s it ft gt none trace w sp tp
          (sp, tp) (fun x hx => by cases hx) rfl]
        by_cases hge : ops.size (ops.shapeSimplify s trace
            (popOrDefault ops.defaultStorage sp).1 w) ≥ ops.size s
        · rw [if_pos hge]
          exact trivial
        · rw [if_neg hge]
          refine ⟨?_, trivial⟩
          show ops.size (ops.shapeSimplify s trace
            (popOrDefault ops.defaultStorage sp).1 w) < ops.size s
          omega
      | some x =>
        by_cases hx : x.1 = trace
        · obtain ⟨t, c⟩ := x
          subst hx
          rw [RenderHandle.simplify_hit]
          exact hI
        · rw [RenderHandle.simplify_miss ops s it ft gt (some x) trace w sp
            tp (RenderHandle.recycle ops x.2 sp tp) (fun y hy => by
              cases hy
              exact hx) rfl]
          by_cases hge : ops.size (ops.shapeSimplify s trace
              (popOrDefault ops.defaultStorage
                (RenderHandle.recycle ops x.2 sp tp).1).1 w) ≥ ops.size s
          · rw [if_pos hge]
            exact trivial
          · rw [if_neg hge]
            refine ⟨?_, trivial⟩
            show ops.size (ops.shapeSimplify s trace
              (popOrDefault ops.defaultStorage
                (RenderHandle.recycle ops x.2 sp tp).1).1 w) < ops.size s
            omega

/-- C3 witness: the clone conjunct of `RenderHandle.inv_preserved` applied
at the concrete instantiation `opsShrink` and the handle `new 5`. -/
theorem RenderHandle.inv_preserved_witness :
    RenderHandle.Inv opsShrink
      (RenderHandle.new 5 : RenderHandle Nat Nat Nat).clone :=
  (RenderHandle.inv_preserved opsShrink).2.1
    (RenderHandle.new 5 : RenderHandle Nat Nat Nat)
    (by simp [RenderHandle.new, RenderHandle.Inv])

end RenderHandleThms
